import Mathlib

/-!
Verification of the multi-source discovery-and-enrichment aggregation
pipeline of the qiita-search repository.

The TypeScript sources are shallowly embedded:
  - `runSearch` (src/services/aggregator.ts) becomes a pure function over
    oracular provider outcomes and a cooperative cancellation trace
    (`sig : Nat → Bool` gives the value of `signal.aborted` at the n-th
    point where the engine observes the signal; the engine is
    single-threaded, so its observations form a sequence);
  - providers (`qiitaProvider`, `zennProvider`, `noteProvider`) become
    functions over oracular network/page outcomes;
  - `tokenize` and the JavaScript string primitives it relies on
    (`String.prototype.split` with the regex `[\s&]+`, `trim`,
    `parseInt`) are embedded directly, with `parseInt`'s NaN outcome
    modelled as an explicit `JsNum.nan` value.
-/

namespace QiitaSearch

/-- A JavaScript number as produced by `parseInt`: either an integer or NaN. -/
inductive JsNum where
  | int (n : Int)
  | nan
deriving DecidableEq, Repr

/-- A JavaScript exception as discriminated by the engine: an `AbortError`
(`DOMException('Aborted', 'AbortError')`) or any other error. -/
inductive JsError where
  | abortError
  | other (msg : String)
deriving DecidableEq, Repr

/-- Characters matched by the JavaScript regex class `\s` (the common ones). -/
def isJsSpace (c : Char) : Bool :=
  c == ' ' || c == '\t' || c == '\n' || c == '\r'

/-- Characters on which `tokenize` splits: the regex class `[\s&]`. -/
def isSep (c : Char) : Bool :=
  isJsSpace c || c == '&'

/-- `String.prototype.split(/[\s&]+/)` as a two-state automaton over the
input characters: in state `some cur` a part (accumulated reversed in
`cur`) is being read; in state `none` a separator run is being skipped,
a part having just been emitted. Reaching the end of the input in skip
state yields the trailing empty part, exactly as JavaScript `split` does;
a leading separator likewise yields a leading empty part. -/
def splitAux : List Char → Option (List Char) → List String
  | [], some cur => [String.mk cur.reverse]
  | [], none => [""]
  | c :: rest, some cur =>
    if isSep c then String.mk cur.reverse :: splitAux rest none
    else splitAux rest (some (c :: cur))
  | c :: rest, none =>
    if isSep c then splitAux rest none else splitAux rest (some [c])

/-- `String.prototype.trim`: drop JavaScript whitespace from both ends. -/
def strTrim (s : String) : String :=
  String.mk (((s.data.dropWhile isJsSpace).reverse.dropWhile isJsSpace).reverse)

/-- `tokenize` from src/utils.ts:
`input.split(/[\s&]+/).map(s => s.trim()).filter(Boolean)`. -/
def tokenize (input : String) : List String :=
  ((splitAux input.data (some [])).map strTrim).filter (fun t => t != "")

/-- Decimal value of a digit list, most significant first. -/
def digitsToNat (l : List Char) : Nat :=
  l.foldl (fun a c => a * 10 + (c.toNat - '0'.toNat)) 0

/-- The digit-consuming core of `parseInt(s, 10)` after sign handling:
no leading digit yields NaN, otherwise the value of the maximal digit run. -/
def parseIntCore (neg : Bool) (cs : List Char) : JsNum :=
  let ds := cs.takeWhile Char.isDigit
  if ds.isEmpty then JsNum.nan
  else JsNum.int (if neg then -(digitsToNat ds : Int) else (digitsToNat ds : Int))

/-- JavaScript `parseInt(s, 10)`: skip leading whitespace, read an optional
sign, then the maximal run of decimal digits; NaN when there is none. -/
def parseInt (s : String) : JsNum :=
  match s.data.dropWhile isJsSpace with
  | [] => parseIntCore false []
  | c :: rest =>
    if c = '-' then parseIntCore true rest
    else if c = '+' then parseIntCore false rest
    else parseIntCore false (c :: rest)

/-- The raw Qiita API item as used by the code: the fields `qiitaProvider`
reads from the JSON payload (`url`, `title`, `created_at`, `likes_count`). -/
structure QiitaItem where
  url : String := ""
  title : Option String := none
  created_at : Option String := none
  likes_count : Option Int := none
deriving DecidableEq, Repr

/-- `FoundItem` from src/types.ts. `raw` is the opaque provider payload;
only the Qiita provider sets it, so it is modelled at that type. -/
structure FoundItem where
  url : String
  source : String
  title : Option String := none
  snippet : Option String := none
  rank : Option Nat := none
  raw : Option QiitaItem := none
deriving DecidableEq, Repr

/-- `EnrichedItem` from src/types.ts: a `FoundItem` (the spread base)
plus the optional metadata fields. -/
structure EnrichedItem where
  item : FoundItem
  publishedAt : Option String := none
  likeCount : Option JsNum := none
  viewCount : Option JsNum := none
deriving DecidableEq, Repr

/-- The implicit TypeScript coercion of a `FoundItem` to an `EnrichedItem`
(and the `{ ...item }` spread with no metadata added). -/
def FoundItem.toEnriched (it : FoundItem) : EnrichedItem :=
  { item := it }

/-- `ProviderOptions` from src/types.ts. -/
structure ProviderOptions where
  tokens : List String
  maxDiscover : Nat
deriving DecidableEq, Repr

/-- A provider as the engine sees it in one run: its id together with the
outcomes of its `search` and `enrich` calls (oracular, since they stand for
network interaction). -/
structure Provider where
  id : String
  search : ProviderOptions → Except JsError (List FoundItem)
  enrich : List FoundItem → Except JsError (List EnrichedItem)

/-! ## The aggregation engine (`runSearch`, src/services/aggregator.ts) -/

/-- `Math.ceil(maxTotal / Math.max(1, providers.length))`, the per-provider
discovery target of the engine. -/
def perProviderTarget (providerCount maxTotal : Nat) : Nat :=
  (maxTotal + max 1 providerCount - 1) / max 1 providerCount

/-- The merge loop run when one provider's search results arrive:
`for (const item of items) { if (signal.aborted) break;
 if (!seenUrls.has(item.url)) { seenUrls.add(item.url); discovered.push(item); } }`.
State is (next signal-observation index, seenUrls, discovered). -/
def mergeLoop (sig : Nat → Bool) :
    List FoundItem → Nat → List String → List FoundItem →
    Nat × List String × List FoundItem
  | [], t, seen, disc => (t, seen, disc)
  | it :: rest, t, seen, disc =>
    if sig t then (t + 1, seen, disc)
    else if seen.contains it.url then mergeLoop sig rest (t + 1) seen disc
    else mergeLoop sig rest (t + 1) (seen ++ [it.url]) (disc ++ [it])

/-- One provider's discovery task followed by the merge of its results.
A rejected search promise is caught (`.catch`) and contributes nothing. -/
def discoverStep (sig : Nat → Bool) (opts : ProviderOptions)
    (acc : Nat × List String × List FoundItem) (p : Provider) :
    Nat × List String × List FoundItem :=
  match p.search opts with
  | Except.error _ => acc
  | Except.ok items => mergeLoop sig items acc.1 acc.2.1 acc.2.2

/-- The whole discovery phase: all providers' tasks, merged as each
resolves. Signal observations start at index 1 (index 0 is the engine's
entry check). -/
def discoverPhase (sig : Nat → Bool) (opts : ProviderOptions)
    (providers : List Provider) : Nat × List String × List FoundItem :=
  providers.foldl (discoverStep sig opts) (1, [], [])

/-- Insert an item into the per-provider group map
(`itemsToEnrichByProvider`), which is keyed by provider identity — here the
index of the first provider whose id matches — and preserves insertion
order, as a JavaScript `Map` does. -/
def addToGroup (gs : List (Nat × List FoundItem)) (k : Nat) (it : FoundItem) :
    List (Nat × List FoundItem) :=
  match gs with
  | [] => [(k, [it])]
  | g :: rest =>
    if g.1 = k then (g.1, g.2 ++ [it]) :: rest else g :: addToGroup rest k it

/-- One iteration of the grouping loop:
`providers.find(p => p.id === item.source)`; items whose source resolves to
no provider are dropped. -/
def groupStep (providers : List Provider) (gs : List (Nat × List FoundItem))
    (it : FoundItem) : List (Nat × List FoundItem) :=
  match providers.findIdx? (fun p => p.id == it.source) with
  | some k => addToGroup gs k it
  | none => gs

/-- Grouping of the deduplicated pool by originating provider. -/
def groupsOf (providers : List Provider) (discovered : List FoundItem) :
    List (Nat × List FoundItem) :=
  discovered.foldl (groupStep providers) []

/-- One group's enrichment task with its `.catch`: a failed enrichment
(of any kind) is replaced by the group's original un-enriched items. -/
def chunkOf (providers : List Provider) (g : Nat × List FoundItem) :
    List EnrichedItem :=
  match providers.get? g.1 with
  | some p =>
    match p.enrich g.2 with
    | Except.ok es => es
    | Except.error _ => g.2.map FoundItem.toEnriched
  | none => g.2.map FoundItem.toEnriched

/-- `enrichedChunks.flat()`: the enrichment phase output before the final
abort check and size cap. -/
def enrichedAll (providers : List Provider) (discovered : List FoundItem) :
    List EnrichedItem :=
  ((groupsOf providers discovered).map (chunkOf providers)).flatten

/-- The engine's merged, deduplicated pool for a run: the `discovered`
array right after the `Promise.all` of the discovery tasks. -/
def discoveredPool (providers : List Provider) (tokens : List String)
    (maxTotal : Nat) (sig : Nat → Bool) : List FoundItem :=
  (discoverPhase sig ⟨tokens, perProviderTarget providers.length maxTotal⟩ providers).2.2

/-- The signal-observation index of the engine's check right after the
discovery phase (`if (signal.aborted) throw` at the `Promise.all` join). -/
def discoverCheckpoint (providers : List Provider) (tokens : List String)
    (maxTotal : Nat) (sig : Nat → Bool) : Nat :=
  (discoverPhase sig ⟨tokens, perProviderTarget providers.length maxTotal⟩ providers).1

/-- One provider's contribution to the merge stream: its discovery result
when the search succeeded, nothing when it rejected (the `.catch`). -/
def successItems (opts : ProviderOptions) (p : Provider) : List FoundItem :=
  match p.search opts with
  | Except.ok items => items
  | Except.error _ => []

/-- The concatenation of all providers' successful discovery results (the
stream of items the merge loops process, in processing order) for a run in
which no merge is truncated by cancellation. -/
def searchStream (providers : List Provider) (tokens : List String)
    (maxTotal : Nat) : List FoundItem :=
  (providers.map (successItems
    ⟨tokens, perProviderTarget providers.length maxTotal⟩)).flatten

/-- `runSearch` from src/services/aggregator.ts. The engine observes the
cancellation signal at: index 0 (the entry check), one index per merged
item (inside the merge loops), the checkpoint index (the check after the
`Promise.all` of the searches) and checkpoint + 1 (the check after
enrichment). It returns the enriched collection truncated to `maxTotal`
(`enriched.slice(0, maxTotal)`), or fails with `abortError`. -/
def runSearch (providers : List Provider) (tokens : List String)
    (maxTotal : Nat) (sig : Nat → Bool) : Except JsError (List EnrichedItem) :=
  if sig 0 then Except.error JsError.abortError else
  if sig (discoverCheckpoint providers tokens maxTotal sig) then
    Except.error JsError.abortError else
  if sig (discoverCheckpoint providers tokens maxTotal sig + 1) then
    Except.error JsError.abortError else
  Except.ok ((enrichedAll providers
    (discoveredPool providers tokens maxTotal sig)).take maxTotal)

/-! ## The Qiita provider (src/services/providers/qiita.ts) -/

/-- Append one fetched page's items, exactly as the `data.forEach` body of
`qiitaProvider.search` does: each item is pushed only while fewer than
`maxDiscover` items are collected, with
`rank: (page - 1) * perPage + idx + 1` and the raw payload carried along. -/
def qiitaAppend (maxDiscover perPage page : Nat) (acc : List FoundItem)
    (items : List QiitaItem) : List FoundItem :=
  items.enum.foldl (fun a x =>
    if a.length < maxDiscover then
      a ++ [{ url := x.2.url, source := "qiita", title := x.2.title,
              rank := some ((page - 1) * perPage + x.1 + 1), raw := some x.2 }]
    else a) acc

/-- The `while` loop of `qiitaProvider.search`. `pages n` is the oracular
outcome of fetching page `n`: `none` for a failed fetch / non-ok status /
malformed JSON (all of which `break`), `some items` for a JSON array (an
empty array also `break`s). `sig` is observed once per iteration (the loop
guard; an abort during the politeness delay likewise stops before the next
fetch). The pair returned is (collected items, number of page fetches
issued). `fuel` is `maxPages + 1 - page`, enough for the page-capped loop. -/
def qiitaGo (pages : Nat → Option (List QiitaItem))
    (maxDiscover perPage maxPages : Nat) (sig : Nat → Bool) :
    Nat → Nat → List FoundItem → Nat → List FoundItem × Nat
  | 0, _, acc, fetches => (acc, fetches)
  | fuel + 1, page, acc, fetches =>
    if acc.length < maxDiscover ∧ page ≤ maxPages ∧ sig fetches = false then
      match pages page with
      | none => (acc, fetches + 1)
      | some [] => (acc, fetches + 1)
      | some items =>
        qiitaGo pages maxDiscover perPage maxPages sig fuel (page + 1)
          (qiitaAppend maxDiscover perPage page acc items) (fetches + 1)
    else (acc, fetches)

/-- `qiitaProvider.search`: page size 100 (the Qiita API maximum), page cap
`Math.ceil(maxDiscover / perPage)`, final `slice(0, maxDiscover)`. Returns
the items together with the number of page fetches issued. -/
def qiitaSearch (pages : Nat → Option (List QiitaItem)) (maxDiscover : Nat)
    (sig : Nat → Bool) : List FoundItem × Nat :=
  let perPage := 100
  let maxPages := (maxDiscover + perPage - 1) / perPage
  let r := qiitaGo pages maxDiscover perPage maxPages sig (maxPages + 1) 1 [] 0
  (r.1.take maxDiscover, r.2)

/-- The per-item transform of `qiitaProvider.enrich`: project
`created_at` and `likes_count` out of the carried raw payload; view count
is never available from the items API and stays absent. -/
def qiitaEnrichItem (it : FoundItem) : EnrichedItem :=
  { item := it
    publishedAt := it.raw.bind (fun r => r.created_at)
    likeCount := (it.raw.bind (fun r => r.likes_count)).map JsNum.int
    viewCount := none }

/-- `qiitaProvider.enrich`: a synchronous `items.map` whose callback first
throws `AbortError` when the signal is aborted (so a non-empty input with
an aborted signal rejects; there is no awaiting inside, hence a single
Boolean describes the signal for the whole call). -/
def qiitaEnrich (ab : Bool) (items : List FoundItem) :
    Except JsError (List EnrichedItem) :=
  if ab ∧ items ≠ [] then Except.error JsError.abortError
  else Except.ok (items.map qiitaEnrichItem)

/-! ## The Zenn provider (src/services/providers/zenn.ts) -/

/-- One `interactionStatistic` entry of a JSON-LD block, as read by the
code (`stat.interactionType.includes('LikeAction')`,
`parseInt(stat.userInteractionCount, 10)`). -/
structure LdInteraction where
  interactionType : String
  userInteractionCount : String
deriving DecidableEq, Repr

/-- The JSON-LD fields `enrichZennItem` reads. -/
structure LdJson where
  datePublished : Option String := none
  dateCreated : Option String := none
  interactionStatistic : Option (List LdInteraction) := none
deriving DecidableEq, Repr

/-- The outcome of fetching and parsing one Zenn article page:
a failed fetch / non-ok response (which degrades to the bare item), or the
page content — `ld` is the JSON-LD script (`none`: no script or empty text;
`some none`: `JSON.parse` threw; `some (some l)`: parsed), `timeAttr` the
`datetime` attribute of a `time[datetime]` element, `likeSpan` the text of
the span inside the like-button container. -/
inductive ZennPage where
  | fetchFail
  | page (ld : Option (Option LdJson)) (timeAttr : Option String)
      (likeSpan : Option String)
deriving DecidableEq, Repr

/-- JavaScript `a || b` on an optional string (empty string is falsy). -/
def jsOrS (a b : Option String) : Option String :=
  match a with
  | some s => if s = "" then b else some s
  | none => b

/-- JavaScript falsiness of an optional string (`undefined` and `""`). -/
def strFalsy (o : Option String) : Bool :=
  match o with
  | none => true
  | some s => s == ""

/-- JavaScript falsiness of an optional number (`undefined`, `NaN`, `0`). -/
def numFalsy (o : Option JsNum) : Bool :=
  match o with
  | none => true
  | some JsNum.nan => true
  | some (JsNum.int n) => n == 0

/-- `x || undefined` applied to a nullable attribute value. -/
def attrOrNone (o : Option String) : Option String :=
  match o with
  | some s => if s = "" then none else some s
  | none => none

/-- Does the first list start with the second one? -/
def listStartsWith : List Char → List Char → Bool
  | _, [] => true
  | [], _ :: _ => false
  | a :: as, b :: bs => a == b && listStartsWith as bs

/-- Does the first list contain the second as a contiguous sublist? -/
def listIncludes : List Char → List Char → Bool
  | [], needle => needle.isEmpty
  | a :: as, needle => listStartsWith (a :: as) needle || listIncludes as needle

/-- JavaScript `s.includes(t)`: `t` occurs contiguously in `s`. -/
def strIncludes (s t : String) : Bool :=
  listIncludes s.data t.data

/-- `enrichZennItem`: try the JSON-LD block
(`ld.datePublished || ld.dateCreated`; the `interactionStatistic` entry
whose type includes "LikeAction", run through `parseInt`), then fall back —
`if (!publishedAt)` to the `time[datetime]` attribute, `if (!likeCount)`
(note: also when the parsed count was NaN or 0) to the like-button span
text. Any fetch failure degrades to the bare item. -/
def enrichZennItem (it : FoundItem) (pg : ZennPage) : EnrichedItem :=
  match pg with
  | ZennPage.fetchFail => it.toEnriched
  | ZennPage.page ld timeAttr likeSpan =>
    let publishedAt0 : Option String :=
      match ld with
      | some (some l) => jsOrS l.datePublished l.dateCreated
      | _ => none
    let likeCount0 : Option JsNum :=
      match ld with
      | some (some l) =>
        match l.interactionStatistic with
        | some stats =>
          match stats.find? (fun st => strIncludes st.interactionType "LikeAction") with
          | some st => some (parseInt st.userInteractionCount)
          | none => none
        | none => none
      | _ => none
    let publishedAt :=
      if strFalsy publishedAt0 then attrOrNone timeAttr else publishedAt0
    let likeCount :=
      if numFalsy likeCount0 then
        match likeSpan with
        | some s => if s == "" then likeCount0 else some (parseInt s)
        | none => likeCount0
      else likeCount0
    { item := it, publishedAt := publishedAt, likeCount := likeCount,
      viewCount := none }

/-- The pure content of `zennProvider.enrich`'s loop when no abort fires:
each item is enriched against its own page outcome, in input order. -/
def zennPure (pgs : Nat → ZennPage) (i : Nat) : List FoundItem → List EnrichedItem
  | [] => []
  | it :: rest => enrichZennItem it (pgs i) :: zennPure pgs (i + 1) rest

/-- The loop of `zennProvider.enrich`: per item, the explicit
`if (signal.aborted) throw` (observation `2*i`), the page scrape (whose own
failures — abort included — are caught inside `enrichZennItem` and degrade
to the bare item), the push, then the politeness delay, which rejects with
`AbortError` when the signal aborts during it (observation `2*i + 1`). -/
def zennEnrichGo (pgs : Nat → ZennPage) (sig : Nat → Bool) :
    List FoundItem → Nat → List EnrichedItem →
    Except JsError (List EnrichedItem)
  | [], _, acc => Except.ok acc
  | it :: rest, i, acc =>
    if sig (2 * i) then Except.error JsError.abortError
    else if sig (2 * i + 1) then Except.error JsError.abortError
    else zennEnrichGo pgs sig rest (i + 1) (acc ++ [enrichZennItem it (pgs i)])

/-- `zennProvider.enrich`. -/
def zennEnrich (pgs : Nat → ZennPage) (sig : Nat → Bool)
    (items : List FoundItem) : Except JsError (List EnrichedItem) :=
  zennEnrichGo pgs sig items 0 []

/-! ## The Note provider (src/services/providers/note.ts) -/

/-- The outcome of fetching one Note article page: failure, or the
`datetime` attribute of a `time[datetime]` element plus the page body text
searched for the like counter. -/
inductive NotePage where
  | fetchFail
  | page (timeAttr : Option String) (body : String)
deriving DecidableEq, Repr

/-- The attempt of `/スキ\s*([0-9,]+)/` at one position: the literal
characters, then optional whitespace, then a non-empty greedy run of
digits and commas. -/
def trySuki (l : List Char) : Option String :=
  match l with
  | 'ス' :: 'キ' :: rest =>
    if ((rest.dropWhile isJsSpace).takeWhile (fun c => c.isDigit || c == ',')).isEmpty
    then none
    else some (String.mk ((rest.dropWhile isJsSpace).takeWhile (fun c => c.isDigit || c == ',')))
  | _ => none

/-- `body.match(/スキ\s*([0-9,]+)/)`: the regex engine tries each start
position from the left and returns the first full match's capture group. -/
def matchSukiCount : List Char → Option String
  | [] => none
  | c :: rest =>
    match trySuki (c :: rest) with
    | some s => some s
    | none => matchSukiCount rest

/-- The capture group of the like-counter regex over a page body. -/
def noteLikeMatch (body : String) : Option String :=
  matchSukiCount body.data

/-- `enrichNoteItem`: published date from the `time[datetime]` attribute
(`|| undefined`), like count from the first `スキ <digits/commas>` match in
the body text with commas removed and `parseInt` applied. -/
def enrichNoteItem (it : FoundItem) (pg : NotePage) : EnrichedItem :=
  match pg with
  | NotePage.fetchFail => it.toEnriched
  | NotePage.page timeAttr body =>
    let likeCount : Option JsNum :=
      match noteLikeMatch body with
      | some s => some (parseInt (String.mk (s.data.filter (fun c => c != ','))))
      | none => none
    { item := it, publishedAt := attrOrNone timeAttr, likeCount := likeCount,
      viewCount := none }

/-! ## Reference definitions and concrete fixtures -/

/-- The merge of a stream of discovery results when no cancellation fires:
URL-keyed first-occurrence-wins deduplication, accumulating the seen-URL
set and the merged pool. This is what all the merge loops of one run
compute jointly. -/
def insertAll : List String → List FoundItem → List FoundItem →
    List String × List FoundItem
  | seen, disc, [] => (seen, disc)
  | seen, disc, it :: rest =>
    if seen.contains it.url then insertAll seen disc rest
    else insertAll (seen ++ [it.url]) (disc ++ [it]) rest

/-- A signal that is never aborted. -/
def sigFalse : Nat → Bool := fun _ => false

/-- A signal that aborts from its third observation on. -/
def sigAfter2 : Nat → Bool := fun t => decide (2 ≤ t)

/-- A Qiita API oracle in which every page is a full page of 100 items. -/
def fullPages : Nat → Option (List QiitaItem) := fun _ =>
  some (List.replicate 100 {})

/-- A Qiita API oracle in which the first page is already empty. -/
def emptyPages : Nat → Option (List QiitaItem) := fun _ => some []

/-- Fixture items for concrete engine runs. -/
def itA1 : FoundItem := { url := "a1", source := "A" }

def itA2 : FoundItem := { url := "a2", source := "A" }

def itB1 : FoundItem := { url := "b1", source := "B" }

def itB2 : FoundItem := { url := "b2", source := "B" }

/-- Fixture provider A: discovers two items, enriches by the identity
coercion. -/
def provA : Provider :=
  { id := "A", search := fun _ => Except.ok [itA1, itA2],
    enrich := fun its => Except.ok (its.map FoundItem.toEnriched) }

/-- Fixture provider B: discovers two items, enrichment always fails with a
non-abort error. -/
def provB : Provider :=
  { id := "B", search := fun _ => Except.ok [itB1, itB2],
    enrich := fun _ => Except.error (JsError.other "boom") }

/-- Fixture provider whose search fails with a non-abort error. -/
def provFail : Provider :=
  { id := "F", search := fun _ => Except.error (JsError.other "net"),
    enrich := fun _ => Except.error (JsError.other "net") }

/-- `provFail` with its discovery failure replaced by an empty result. -/
def provFailZero : Provider :=
  { provFail with search := fun _ => Except.ok [] }

/-- Fixture provider that discovers nothing and enriches nothing. -/
def provEmpty : Provider :=
  { id := "E", search := fun _ => Except.ok [],
    enrich := fun its => Except.ok (its.map FoundItem.toEnriched) }

/-- A Zenn article page whose JSON-LD carries a like interaction with a
non-numeric count and which offers no fallback elements. -/
def zennNanPage : ZennPage :=
  ZennPage.page
    (some (some
      { interactionStatistic := some
          [{ interactionType := "http://schema.org/LikeAction",
             userInteractionCount := "abc" }] }))
    none none

/-- A page oracle serving `zennNanPage` for every item. -/
def zennNanPages : Nat → ZennPage := fun _ => zennNanPage

/-- A plain item as the Zenn provider would discover it. -/
def zennItem : FoundItem := { url := "https://zenn.dev/x", source := "zenn" }

/-- A page oracle for which every per-item fetch fails. -/
def zennFailPages : Nat → ZennPage := fun _ => ZennPage.fetchFail

/-- The statement of the joint `split(/[\s&]+/)` invariant for input `l`
and automaton state `st`: all parts consist of non-separator characters,
and after trimming and dropping empty parts nothing remains exactly when
the current part (if in reading state) is empty and the remaining input is
all separators. -/
def SplitInv (l : List Char) : Prop :=
  ∀ st : Option (List Char), (∀ cur ∈ st, ∀ c ∈ cur, isSep c = false) →
    (∀ t ∈ splitAux l st, ∀ c ∈ t.data, isSep c = false)
    ∧ (((splitAux l st).map strTrim).filter (fun t => t != "") = []
         ↔ (st = none ∨ st = some []) ∧ ∀ c ∈ l, isSep c = true)

/-! ## Helper lemmas: strings and the tokenizer -/

theorem strMk_data (s : String) : String.mk s.data = s := by
  cases s; rfl

theorem strMk_eq_empty_iff (l : List Char) : String.mk l = "" ↔ l = [] := by
  constructor
  · intro h
    exact congrArg String.data h
  · intro h; subst h; rfl

theorem sepfree_dropWhile (l : List Char) (h : ∀ c ∈ l, isSep c = false) :
    l.dropWhile isJsSpace = l := by
  cases l with
  | nil => rfl
  | cons c cs =>
    have hc : isSep c = false := h c (List.mem_cons_self c cs)
    have hsp : isJsSpace c = false := by
      simp only [isSep, Bool.or_eq_false_iff] at hc
      exact hc.1
    simp [List.dropWhile_cons, hsp]

theorem strTrim_sepfree (s : String) (h : ∀ c ∈ s.data, isSep c = false) :
    strTrim s = s := by
  unfold strTrim
  rw [sepfree_dropWhile s.data h]
  rw [sepfree_dropWhile s.data.reverse (fun c hc => h c (List.mem_reverse.mp hc))]
  rw [List.reverse_reverse, strMk_data]

theorem strTrim_empty : strTrim "" = "" := rfl

theorem splitInv_nil : SplitInv [] := by
  rintro (_ | cur) hcur
  · constructor
    · intro t ht c hc
      simp only [splitAux, List.mem_singleton] at ht
      subst ht
      exact absurd hc (List.not_mem_nil c)
    · simp [splitAux, List.filter_cons, strTrim_empty]
  · have hc : ∀ c ∈ cur, isSep c = false := hcur cur rfl
    constructor
    · intro t ht x hx
      simp only [splitAux, List.mem_singleton] at ht
      subst ht
      exact hc x (List.mem_reverse.mp hx)
    · simp only [splitAux, List.map_cons, List.map_nil]
      rw [strTrim_sepfree (String.mk cur.reverse)
        (fun x hx => hc x (List.mem_reverse.mp hx))]
      by_cases hcc : cur = []
      · subst hcc; simp
      · have hne : String.mk cur.reverse ≠ "" := by
          rw [Ne, strMk_eq_empty_iff, List.reverse_eq_nil_iff]
          exact hcc
        simp [List.filter_cons, hne, hcc]

theorem splitInv_all : ∀ n : Nat, ∀ l : List Char, l.length ≤ n → SplitInv l := by
  intro n
  induction n with
  | zero =>
    intro l hl
    have hnil : l = [] := List.length_eq_zero.mp (Nat.le_zero.mp hl)
    subst hnil
    exact splitInv_nil
  | succ n ih =>
    intro l hl
    cases l with
    | nil => exact splitInv_nil
    | cons c rest =>
      have hrest : rest.length ≤ n := by
        simpa [Nat.succ_le_succ_iff] using hl
      have IH := ih rest hrest
      have IHskip := IH none (by rintro cur ⟨⟩)
      rintro (_ | cur) hcur
      · -- skip state
        by_cases hsep : isSep c = true
        · constructor
          · intro t ht x hx
            simp only [splitAux, hsep, if_true] at ht
            exact IHskip.1 t ht x hx
          · simp only [splitAux, hsep, if_true]
            rw [IHskip.2]
            simp [hsep]
        · have H := IH (some [c]) (by
            rintro cur h
            injection h with h
            subst h
            intro x hx
            simp only [List.mem_singleton] at hx
            subst hx
            exact Bool.eq_false_iff.mpr hsep)
          constructor
          · intro t ht x hx
            simp only [splitAux] at ht
            rw [if_neg hsep] at ht
            exact H.1 t ht x hx
          · simp only [splitAux]
            rw [if_neg hsep]
            rw [H.2]
            constructor
            · rintro ⟨h1 | h1, -⟩ <;> exact absurd h1 (by simp)
            · rintro ⟨-, h2⟩
              exact absurd (h2 c (List.mem_cons_self c rest)) hsep
      · -- reading state with part cur
        have hc : ∀ x ∈ cur, isSep x = false := hcur cur rfl
        by_cases hsep : isSep c = true
        · constructor
          · intro t ht x hx
            simp only [splitAux, hsep, if_true, List.mem_cons] at ht
            rcases ht with ht | ht
            · subst ht
              exact hc x (List.mem_reverse.mp hx)
            · exact IHskip.1 t ht x hx
          · simp only [splitAux, hsep, if_true, List.map_cons]
            rw [strTrim_sepfree (String.mk cur.reverse)
              (fun x hx => hc x (List.mem_reverse.mp hx))]
            by_cases hcc : cur = []
            · subst hcc
              simp only [List.filter_cons]
              have : ((String.mk ([] : List Char).reverse) != "") = false := by decide
              rw [this]
              rw [if_neg Bool.false_ne_true]
              rw [IHskip.2]
              simp [hsep]
            · have hne : String.mk cur.reverse ≠ "" := by
                rw [Ne, strMk_eq_empty_iff, List.reverse_eq_nil_iff]
                exact hcc
              simp [List.filter_cons, hne, hcc]
        · have H := IH (some (c :: cur)) (by
            rintro cur2 h
            injection h with h
            subst h
            intro x hx
            rcases List.mem_cons.mp hx with hx | hx
            · subst hx; exact Bool.eq_false_iff.mpr hsep
            · exact hc x hx)
          constructor
          · intro t ht x hx
            simp only [splitAux] at ht
            rw [if_neg hsep] at ht
            exact H.1 t ht x hx
          · simp only [splitAux]
            rw [if_neg hsep]
            rw [H.2]
            constructor
            · rintro ⟨h1 | h1, -⟩ <;> exact absurd h1 (by simp)
            · rintro ⟨-, h2⟩
              exact absurd (h2 c (List.mem_cons_self c rest)) hsep

/-! ## Helper lemmas: parseInt and digit strings -/

theorem digit_not_space (c : Char) (h : c.isDigit = true) : isJsSpace c = false := by
  cases hsp : isJsSpace c with
  | false => rfl
  | true =>
    exfalso
    simp only [isJsSpace, Bool.or_eq_true, beq_iff_eq] at hsp
    rcases hsp with ((h1 | h1) | h1) | h1 <;> subst h1 <;>
      exact absurd h (by decide)

theorem digit_signs (c : Char) (h : c.isDigit = true) : c ≠ '-' ∧ c ≠ '+' := by
  constructor <;> rintro rfl <;> exact absurd h (by decide)

theorem digit_not_comma (c : Char) (h : c.isDigit = true) : (c == ',') = false := by
  cases hc : c == ','
  · rfl
  · exfalso
    rw [beq_iff_eq] at hc
    subst hc
    exact absurd h (by decide)

theorem takeWhile_all {α : Type} (p : α → Bool) :
    ∀ l : List α, (∀ c ∈ l, p c = true) → l.takeWhile p = l := by
  intro l
  induction l with
  | nil => intro _; rfl
  | cons c cs ih =>
    intro h
    rw [List.takeWhile_cons, if_pos (h c (List.mem_cons_self c cs)),
      ih (fun x hx => h x (List.mem_cons_of_mem c hx))]

theorem parseInt_digits (s : String) (hne : s.data ≠ [])
    (hd : ∀ c ∈ s.data, c.isDigit = true) :
    parseInt s = JsNum.int (digitsToNat s.data) := by
  rcases hds : s.data with _ | ⟨c, cs⟩
  · exact absurd hds hne
  · have hc : c.isDigit = true := hd c (by rw [hds]; exact List.mem_cons_self c cs)
    have hall : ∀ x ∈ c :: cs, x.isDigit = true := by
      intro x hx; exact hd x (by rw [hds]; exact hx)
    unfold parseInt
    rw [hds, List.dropWhile_cons, if_neg (by simp [digit_not_space c hc])]
    simp only []
    rw [if_neg (digit_signs c hc).1, if_neg (digit_signs c hc).2]
    unfold parseIntCore
    rw [takeWhile_all Char.isDigit (c :: cs) hall]
    simp

/-- Characters captured by the like-counter regex are digits or commas. -/
theorem trySuki_chars (l : List Char) (s : String) (h : trySuki l = some s) :
    ∀ c ∈ s.data, (c.isDigit || c == ',') = true := by
  unfold trySuki at h
  split at h
  · split at h
    · exact absurd h (by simp)
    · intro c hc
      injection h with h
      subst h
      exact List.mem_takeWhile_imp (p := fun c => c.isDigit || c == ',') hc
  · exact absurd h (by simp)

theorem matchSuki_chars : ∀ l : List Char, ∀ s : String,
    matchSukiCount l = some s → ∀ c ∈ s.data, (c.isDigit || c == ',') = true := by
  intro l
  induction l with
  | nil => intro s h; exact absurd h (by simp [matchSukiCount])
  | cons c rest ih =>
    intro s h
    simp only [matchSukiCount] at h
    rcases ht : trySuki (c :: rest) with _ | s'
    · rw [ht] at h
      exact ih s h
    · rw [ht] at h
      injection h with h
      subst h
      exact trySuki_chars (c :: rest) s' ht

/-! ## Claim theorems: the tokenizer (C9) and likeCount validity (C8) -/

/-- C9 (counterexample): the claim says `tokenize` returns a non-empty
list for every free-text query string, but on the empty string the split
produces only an empty part, which the filter discards: `tokenize ""` is
the empty list. -/
theorem tokenize_empty_cex : tokenize "" = [] := rfl

/-- C9 (amended): for every free-text query string, `tokenize` splits it
on whitespace/ampersand runs and discards empty tokens, returning an
ordered list of non-empty keyword strings free of separator characters;
the list is empty exactly when the input consists entirely of
whitespace/ampersand characters (in particular it is non-empty whenever
the input has any other character), e.g.
`tokenize "foo bar&baz  qux" = ["foo", "bar", "baz", "qux"]`. -/
theorem tokenize_splits (s : String) :
    (∀ t ∈ tokenize s, t ≠ "" ∧ ∀ c ∈ t.data, isSep c = false)
    ∧ (tokenize s = [] ↔ ∀ c ∈ s.data, isSep c = true)
    ∧ tokenize "foo bar&baz  qux" = ["foo", "bar", "baz", "qux"] := by
  have Hc := splitInv_all s.data.length s.data (Nat.le_refl _) (some [])
    (by rintro cur h
        injection h with h
        subst h
        intro c hc
        exact absurd hc (List.not_mem_nil c))
  refine ⟨?_, ?_, by decide⟩
  · intro t ht
    unfold tokenize at ht
    obtain ⟨hmem, hne⟩ := List.mem_filter.mp ht
    obtain ⟨t0, ht0, rfl⟩ := List.mem_map.mp hmem
    have hchars := Hc.1 t0 ht0
    have htr : strTrim t0 = t0 := strTrim_sepfree t0 hchars
    rw [htr]
    rw [htr] at hne
    exact ⟨bne_iff_ne.mp hne, hchars⟩
  · unfold tokenize
    rw [Hc.2]
    simp

/-- Witness for the amended C9 statement, evaluating the concrete split. -/
theorem tokenize_splits_witness :
    tokenize "foo bar&baz  qux" = ["foo", "bar", "baz", "qux"] :=
  (tokenize_splits "").2.2

/-- C8 (counterexample): the claim says `likeCount` is never a non-integer
or otherwise invalid numeric value, but when the Zenn JSON-LD block has a
like interaction whose count text is not numeric (and the fallback span is
absent), `parseInt` yields NaN and the code stores it: the enriched item
carries `likeCount = NaN`. -/
theorem like_count_nan_cex :
    zennEnrich zennNanPages sigFalse [zennItem]
      = Except.ok [enrichZennItem zennItem zennNanPage]
    ∧ (enrichZennItem zennItem zennNanPage).likeCount = some JsNum.nan := by
  exact ⟨rfl, rfl⟩

/-- C8 (amended): `likeCount` is either absent or the number the code
extracted: for the API-backed provider it is exactly the carried payload's
`likes_count` (absent when the payload or field is absent, an integer
otherwise); for the scraped providers it is the raw `parseInt` result,
which is a non-negative integer whenever the extracted text is made of
digits — a Zenn like-span of digits, or a Note `スキ` counter match
containing at least one digit — but can be NaN on malformed text. -/
theorem like_count_amended (it : FoundItem) (ta : Option String) (s : String)
    (body : String) (sn : String)
    (hs : s.data ≠ []) (hsd : ∀ c ∈ s.data, c.isDigit = true)
    (hm : noteLikeMatch body = some sn) (hnd : ∃ c ∈ sn.data, c.isDigit = true) :
    (∃ n : Nat, (enrichZennItem it (ZennPage.page none ta (some s))).likeCount
        = some (JsNum.int n))
    ∧ (∃ n : Nat, (enrichNoteItem it (NotePage.page ta body)).likeCount
        = some (JsNum.int n))
    ∧ ∀ it2 : FoundItem, (qiitaEnrichItem it2).likeCount
        = (it2.raw.bind (fun r => r.likes_count)).map JsNum.int := by
  have hsne : (s == "") = false := by
    rw [beq_eq_false_iff_ne]
    intro h
    subst h
    exact hs rfl
  refine ⟨⟨digitsToNat s.data, ?_⟩, ?_, fun it2 => rfl⟩
  · simp only [enrichZennItem, numFalsy, hsne, if_false]
    rw [parseInt_digits s hs hsd]
    simp
  · have hchars := matchSuki_chars body.data sn hm
    have hfd : ∀ c ∈ sn.data.filter (fun c => c != ','), c.isDigit = true := by
      intro c hc
      obtain ⟨hmem, hcomma⟩ := List.mem_filter.mp hc
      have hor := hchars c hmem
      rcases (by simpa using hor : c.isDigit = true ∨ (c == ',') = true) with h | h
      · exact h
      · rw [bne_iff_ne] at hcomma
        exact absurd (beq_iff_eq.mp h) hcomma
    have hfne : sn.data.filter (fun c => c != ',') ≠ [] := by
      obtain ⟨c, hc, hcd⟩ := hnd
      apply List.ne_nil_of_mem (a := c)
      rw [List.mem_filter]
      refine ⟨hc, ?_⟩
      rw [bne_iff_ne]
      intro h
      subst h
      exact absurd hcd (by decide)
    refine ⟨digitsToNat (sn.data.filter (fun c => c != ',')), ?_⟩
    have hm2 : matchSukiCount body.data = some sn := hm
    simp only [enrichNoteItem, noteLikeMatch, hm2]
    rw [parseInt_digits (String.mk (sn.data.filter (fun c => c != ','))) hfne hfd]

/-- Witness for the amended C8 statement at a concrete Zenn span "42",
Note body "スキ 42" and arbitrary item. -/
theorem like_count_amended_witness :
    (∃ n : Nat, (enrichZennItem zennItem (ZennPage.page none none (some "42"))).likeCount
        = some (JsNum.int n))
    ∧ (∃ n : Nat, (enrichNoteItem zennItem (NotePage.page none "スキ 42")).likeCount
        = some (JsNum.int n))
    ∧ ∀ it2 : FoundItem, (qiitaEnrichItem it2).likeCount
        = (it2.raw.bind (fun r => r.likes_count)).map JsNum.int :=
  like_count_amended zennItem none "42" "スキ 42" "42"
    (by decide) (by decide) (by decide) (by decide)

/-! ## Claim theorems: Qiita pagination (C6) -/

/-- Each loop iteration of `qiitaProvider.search` issues at most one fetch
and advances the page counter, which the guard bounds by `maxPages`. -/
theorem qiitaGo_fetch_bound (pages : Nat → Option (List QiitaItem))
    (maxDiscover perPage maxPages : Nat) (sig : Nat → Bool) :
    ∀ fuel page acc fetches,
      (qiitaGo pages maxDiscover perPage maxPages sig fuel page acc fetches).2
        ≤ fetches + (maxPages + 1 - page) := by
  intro fuel
  induction fuel with
  | zero =>
    intro page acc fetches
    simp [qiitaGo]
  | succ fuel ih =>
    intro page acc fetches
    by_cases hg : acc.length < maxDiscover ∧ page ≤ maxPages ∧ sig fetches = false
    · have hpage : page ≤ maxPages := hg.2.1
      rw [qiitaGo, if_pos hg]
      rcases hp : pages page with _ | items
      · simp only []
        omega
      · cases items with
        | nil =>
          simp only []
          omega
        | cons i is =>
          simp only []
          have := ih (page + 1) (qiitaAppend maxDiscover perPage page acc (i :: is))
            (fetches + 1)
          omega
    · rw [qiitaGo, if_neg hg]
      omega

set_option maxRecDepth 4000 in
/-- C6: for every positive `maxDiscover`, `qiitaProvider.search` issues at
most `ceil(maxDiscover / 100)` page fetches (page size 100) and returns at
most `maxDiscover` items; concretely, for `maxDiscover = 250` with full
pages of 100 it issues exactly 3 fetches, collects exactly 250 items whose
discovery ranks are `(pageIndex-1)*100 + indexInPage + 1`, i.e. `1..250`
in order, and with an immediately empty remote result it stops after one
fetch with no items. -/
theorem qiita_search_pagination (maxDiscover : Nat) (hpos : 0 < maxDiscover)
    (pages : Nat → Option (List QiitaItem)) (sig : Nat → Bool) :
    (qiitaSearch pages maxDiscover sig).2 ≤ (maxDiscover + 100 - 1) / 100
    ∧ (qiitaSearch pages maxDiscover sig).1.length ≤ maxDiscover
    ∧ (qiitaSearch fullPages 250 sigFalse).2 = 3
    ∧ (qiitaSearch fullPages 250 sigFalse).1.length = 250
    ∧ ((qiitaSearch fullPages 250 sigFalse).1.map (fun i => i.rank))
        = (List.range 250).map (fun i => some (i + 1))
    ∧ (qiitaSearch emptyPages 250 sigFalse).2 = 1
    ∧ (qiitaSearch emptyPages 250 sigFalse).1 = [] := by
  refine ⟨?_, ?_, by decide, by decide, by decide, by decide, by decide⟩
  · unfold qiitaSearch
    have := qiitaGo_fetch_bound pages maxDiscover 100
      ((maxDiscover + 100 - 1) / 100) sig (((maxDiscover + 100 - 1) / 100) + 1) 1 [] 0
    simpa using this
  · unfold qiitaSearch
    simp only []
    exact List.length_take_le maxDiscover _

/-- Witness for the C6 statement at `maxDiscover = 250`. -/
theorem qiita_search_pagination_witness :
    (qiitaSearch fullPages 250 sigFalse).2 ≤ (250 + 100 - 1) / 100
    ∧ (qiitaSearch fullPages 250 sigFalse).1.length ≤ 250
    ∧ (qiitaSearch fullPages 250 sigFalse).2 = 3
    ∧ (qiitaSearch fullPages 250 sigFalse).1.length = 250
    ∧ ((qiitaSearch fullPages 250 sigFalse).1.map (fun i => i.rank))
        = (List.range 250).map (fun i => some (i + 1))
    ∧ (qiitaSearch emptyPages 250 sigFalse).2 = 1
    ∧ (qiitaSearch emptyPages 250 sigFalse).1 = [] :=
  qiita_search_pagination 250 (by decide) fullPages sigFalse

/-! ## Claim theorems: enrichment shape (C7) -/

theorem enrichZennItem_item (it : FoundItem) (pg : ZennPage) :
    (enrichZennItem it pg).item = it := by
  cases pg <;> rfl

theorem zennPure_length (pgs : Nat → ZennPage) :
    ∀ items : List FoundItem, ∀ i, (zennPure pgs i items).length = items.length := by
  intro items
  induction items with
  | nil => intro i; rfl
  | cons it rest ih => intro i; simp [zennPure, ih]

theorem zennPure_get (pgs : Nat → ZennPage) :
    ∀ items : List FoundItem, ∀ i j,
      ((zennPure pgs i items).get? j).map (fun e => e.item) = items.get? j := by
  intro items
  induction items with
  | nil => intro i j; rfl
  | cons it rest ih =>
    intro i j
    cases j with
    | zero => simp [zennPure, enrichZennItem_item]
    | succ j => simpa [zennPure] using ih (i + 1) j

theorem zennEnrichGo_ok (pgs : Nat → ZennPage) (sig : Nat → Bool) :
    ∀ items : List FoundItem, ∀ i acc out,
      zennEnrichGo pgs sig items i acc = Except.ok out →
      out = acc ++ zennPure pgs i items := by
  intro items
  induction items with
  | nil =>
    intro i acc out h
    simp only [zennEnrichGo, Except.ok.injEq] at h
    subst h
    simp [zennPure]
  | cons it rest ih =>
    intro i acc out h
    rw [zennEnrichGo] at h
    by_cases h0 : sig (2 * i) = true
    · rw [if_pos h0] at h; exact absurd h (by simp)
    · rw [if_neg h0] at h
      by_cases h1 : sig (2 * i + 1) = true
      · rw [if_pos h1] at h; exact absurd h (by simp)
      · rw [if_neg h1] at h
        have hr := ih (i + 1) (acc ++ [enrichZennItem it (pgs i)]) out h
        rw [hr, zennPure, List.append_assoc]
        rfl

/-- C7: for every input sequence of discovered items, when enrichment
completes without cancellation, `qiitaProvider.enrich` and
`zennProvider.enrich` both return a sequence of the same length and order
as the input, and each output item carries every field of the input item
it was derived from, unmodified except for the added metadata fields
(position `j` of the output projects back to position `j` of the input). -/
theorem enrich_preserves_items (itemsq itemsz : List FoundItem) (ab : Bool)
    (pgs : Nat → ZennPage) (sig : Nat → Bool) (outq outz : List EnrichedItem)
    (hq : qiitaEnrich ab itemsq = Except.ok outq)
    (hz : zennEnrich pgs sig itemsz = Except.ok outz) :
    (outq.length = itemsq.length
      ∧ ∀ j : Nat, (outq.get? j).map (fun e => e.item) = itemsq.get? j)
    ∧ (outz.length = itemsz.length
      ∧ ∀ j : Nat, (outz.get? j).map (fun e => e.item) = itemsz.get? j) := by
  constructor
  · have hout : outq = itemsq.map qiitaEnrichItem := by
      unfold qiitaEnrich at hq
      split at hq
      · exact absurd hq (by simp)
      · injection hq with hq
        exact hq.symm
    constructor
    · simp [hout]
    · intro j
      rw [hout, List.get?_map]
      cases itemsq.get? j <;> rfl
  · have hout : outz = zennPure pgs 0 itemsz := by
      simpa using zennEnrichGo_ok pgs sig itemsz 0 [] outz hz
    subst hout
    exact ⟨zennPure_length pgs itemsz 0, fun j => zennPure_get pgs itemsz 0 j⟩

/-- Witness for C7: one item through each provider, projected at index 0. -/
theorem enrich_preserves_items_witness :
    (qiitaEnrich false [itA1] = Except.ok [qiitaEnrichItem itA1])
    ∧ [qiitaEnrichItem itA1].length = [itA1].length
    ∧ (([zennItem.toEnriched].get? 0).map (fun e => e.item))
        = [zennItem].get? 0 :=
  ⟨rfl,
   (enrich_preserves_items [itA1] [zennItem] false zennFailPages sigFalse
     [qiitaEnrichItem itA1] [zennItem.toEnriched] rfl rfl).1.1,
   (enrich_preserves_items [itA1] [zennItem] false zennFailPages sigFalse
     [qiitaEnrichItem itA1] [zennItem.toEnriched] rfl rfl).2.2 0⟩

/-! ## Claim theorems: engine basics (C2, C10, C3) -/

/-- On the success path all three abort checks were false and the result
is the flattened enrichment output truncated to `maxTotal`. -/
theorem runSearch_ok_shape (providers : List Provider) (tokens : List String)
    (maxTotal : Nat) (sig : Nat → Bool) (out : List EnrichedItem)
    (h : runSearch providers tokens maxTotal sig = Except.ok out) :
    out = (enrichedAll providers
      (discoveredPool providers tokens maxTotal sig)).take maxTotal := by
  unfold runSearch at h
  split at h
  · exact absurd h (by simp)
  · split at h
    · exact absurd h (by simp)
    · split at h
      · exact absurd h (by simp)
      · injection h with h
        exact h.symm

/-- C2: for every run of the engine — any tokens, providers, signal trace
and provider outcomes — a successful `runSearch` returns at most
`maxTotal` items (the final `enriched.slice(0, maxTotal)`). -/
theorem run_search_size_cap (providers : List Provider) (tokens : List String)
    (maxTotal : Nat) (sig : Nat → Bool) (out : List EnrichedItem)
    (hrun : runSearch providers tokens maxTotal sig = Except.ok out) :
    out.length ≤ maxTotal := by
  rw [runSearch_ok_shape providers tokens maxTotal sig out hrun]
  exact List.length_take_le _ _

/-- Witness for C2: a concrete two-provider run discovering four items
with `maxTotal = 3`. -/
theorem run_search_size_cap_witness :
    ([FoundItem.toEnriched itA1, FoundItem.toEnriched itA2,
      FoundItem.toEnriched itB1] : List EnrichedItem).length ≤ 3 :=
  run_search_size_cap [provA, provB] ["t"] 3 sigFalse
    [FoundItem.toEnriched itA1, FoundItem.toEnriched itA2,
     FoundItem.toEnriched itB1] rfl

/-- C10: with an empty provider registry and a non-aborted signal,
`runSearch` succeeds with the empty collection, and the per-provider quota
`Math.ceil(maxTotal / Math.max(1, 0))` is simply `maxTotal` — no division
anomaly and no failure. -/
theorem run_search_empty_providers (tokens : List String) (maxTotal : Nat)
    (sig : Nat → Bool) (hsig : ∀ t, sig t = false) :
    runSearch [] tokens maxTotal sig = Except.ok []
    ∧ perProviderTarget ([] : List Provider).length maxTotal = maxTotal := by
  constructor
  · simp [runSearch, hsig, discoveredPool, discoverPhase, enrichedAll, groupsOf]
  · simp [perProviderTarget]

/-- Witness for C10 at concrete tokens and `maxTotal = 5`. -/
theorem run_search_empty_providers_witness :
    runSearch [] ["x"] 5 sigFalse = Except.ok []
    ∧ perProviderTarget ([] : List Provider).length 5 = 5 :=
  run_search_empty_providers ["x"] 5 sigFalse (fun _ => rfl)

/-- C3: if the signal has not fired at the entry check nor at the
post-discovery check but is observed fired at the post-enrichment check —
i.e. cancellation fires during the enrichment phase, after discovery
completed — then `runSearch` fails with Aborted and returns no partial
collection; moreover, for every run whatsoever, the only failure that ever
crosses the engine boundary is Aborted (search rejections and enrichment
rejections are caught inside). -/
theorem run_search_abort_propagation (providers : List Provider)
    (tokens : List String) (maxTotal : Nat) (sig : Nat → Bool)
    (h0 : sig 0 = false)
    (h1 : sig (discoverCheckpoint providers tokens maxTotal sig) = false)
    (h2 : sig (discoverCheckpoint providers tokens maxTotal sig + 1) = true) :
    runSearch providers tokens maxTotal sig = Except.error JsError.abortError
    ∧ ∀ (ps : List Provider) (tks : List String) (mt : Nat) (sg : Nat → Bool)
        (msg : String),
        runSearch ps tks mt sg ≠ Except.error (JsError.other msg) := by
  constructor
  · unfold runSearch
    rw [h0, h1, h2]
    simp
  · intro ps tks mt sg msg
    unfold runSearch
    split
    · simp
    · split
      · simp
      · split
        · simp
        · simp

/-- Witness for C3: one provider whose discovery completes, with a signal
firing between the post-discovery and post-enrichment checks. -/
theorem run_search_abort_propagation_witness :
    runSearch [provEmpty] [] 5 sigAfter2 = Except.error JsError.abortError :=
  (run_search_abort_propagation [provEmpty] [] 5 sigAfter2
    (by decide) (by decide) (by decide)).1

/-! ## Claim theorems: provider isolation (C4) -/

theorem findIdx?_congr_id : ∀ (L L2 : List Provider),
    L.map (fun q => q.id) = L2.map (fun q => q.id) →
    ∀ (s : String) (i : Nat),
      List.findIdx? (fun q => q.id == s) L i
        = List.findIdx? (fun q => q.id == s) L2 i := by
  intro L
  induction L with
  | nil =>
    intro L2 h s i
    cases L2 with
    | nil => rfl
    | cons q qs => exact absurd h (by simp)
  | cons pp ps ih =>
    intro L2 h s i
    cases L2 with
    | nil => exact absurd h (by simp)
    | cons q qs =>
      simp only [List.map_cons, List.cons.injEq] at h
      rw [List.findIdx?_cons, List.findIdx?_cons, h.1, ih qs h.2 s (i + 1)]

theorem chunkOf_congr (L L2 : List Provider)
    (h : L.map (fun q => q.enrich) = L2.map (fun q => q.enrich))
    (g : Nat × List FoundItem) : chunkOf L g = chunkOf L2 g := by
  have hg : (L.get? g.1).map (fun q => q.enrich)
      = (L2.get? g.1).map (fun q => q.enrich) := by
    rw [← List.get?_map, ← List.get?_map, h]
  unfold chunkOf
  rcases h1 : L.get? g.1 with _ | pp
  · rcases h2 : L2.get? g.1 with _ | q
    · rfl
    · rw [h1, h2] at hg
      exact absurd hg (by simp)
  · rcases h2 : L2.get? g.1 with _ | q
    · rw [h1, h2] at hg
      exact absurd hg (by simp)
    · rw [h1, h2] at hg
      simp only [Option.map_some', Option.some.injEq] at hg
      simp only [hg]

theorem foldl_congr_fn {α β : Type} (f g : β → α → β) :
    ∀ (l : List α) (b : β), (∀ b2 a, f b2 a = g b2 a) →
      l.foldl f b = l.foldl g b := by
  intro l
  induction l with
  | nil => intro b h; rfl
  | cons a as ih =>
    intro b h
    simp only [List.foldl_cons]
    rw [h b a]
    exact ih _ h

/-- C4: in a run with at least two providers, a discovery failure of one
provider with any non-cancellation error is treated exactly as that
provider contributing zero items: the whole run is indistinguishable from
the run in which that provider returns an empty discovery result, so the
other providers' contributions, the grouping, the enrichment and the final
collection are all unaffected. -/
theorem search_failure_isolated (A B : List Provider) (p : Provider)
    (tokens : List String) (maxTotal : Nat) (sig : Nat → Bool) (msg : String)
    (hmulti : 1 ≤ A.length + B.length)
    (hfail : p.search ⟨tokens, perProviderTarget (A ++ p :: B).length maxTotal⟩
      = Except.error (JsError.other msg)) :
    runSearch (A ++ p :: B) tokens maxTotal sig
      = runSearch (A ++ { p with search := fun _ => Except.ok [] } :: B)
          tokens maxTotal sig := by
  set p2 : Provider := { p with search := fun _ => Except.ok [] } with hp2
  have hlen : (A ++ p2 :: B).length = (A ++ p :: B).length := by simp
  have hopts : perProviderTarget (A ++ p2 :: B).length maxTotal
      = perProviderTarget (A ++ p :: B).length maxTotal := by
    rw [hlen]
  have hd : discoverPhase sig
        ⟨tokens, perProviderTarget (A ++ p :: B).length maxTotal⟩ (A ++ p2 :: B)
      = discoverPhase sig
        ⟨tokens, perProviderTarget (A ++ p :: B).length maxTotal⟩ (A ++ p :: B) := by
    unfold discoverPhase
    rw [List.foldl_append, List.foldl_append]
    simp only [List.foldl_cons]
    congr 1
    unfold discoverStep
    rw [hfail]
    rfl
  have e1 : discoverCheckpoint (A ++ p2 :: B) tokens maxTotal sig
      = discoverCheckpoint (A ++ p :: B) tokens maxTotal sig := by
    unfold discoverCheckpoint
    rw [hopts, hd]
  have e2 : discoveredPool (A ++ p2 :: B) tokens maxTotal sig
      = discoveredPool (A ++ p :: B) tokens maxTotal sig := by
    unfold discoveredPool
    rw [hopts, hd]
  have hgroups : ∀ pool, groupsOf (A ++ p2 :: B) pool = groupsOf (A ++ p :: B) pool := by
    intro pool
    unfold groupsOf
    apply foldl_congr_fn
    intro gs it
    unfold groupStep
    rw [findIdx?_congr_id (A ++ p2 :: B) (A ++ p :: B) (by simp [hp2]) it.source 0]
  have e3 : ∀ pool, enrichedAll (A ++ p2 :: B) pool = enrichedAll (A ++ p :: B) pool := by
    intro pool
    unfold enrichedAll
    rw [hgroups pool]
    congr 1
    apply List.map_congr_left
    intro g hg
    exact chunkOf_congr (A ++ p2 :: B) (A ++ p :: B) (by simp [hp2]) g
  unfold runSearch
  rw [e1, e2, e3]

/-- Witness for C4: provider A paired with a failing provider. -/
theorem search_failure_isolated_witness :
    runSearch ([provA] ++ provFail :: []) ["t"] 3 sigFalse
      = runSearch ([provA] ++ { provFail with search := fun _ => Except.ok [] } :: [])
          ["t"] 3 sigFalse :=
  search_failure_isolated [provA] [] provFail ["t"] 3 sigFalse "net"
    (by decide) rfl

/-! ## Claim theorems: enrichment-failure degradation (C5) -/

/-- C5 (counterexample): the claim says items whose provider enrichment
failed (non-abort) always appear in the final output, but the final
`slice(0, maxTotal)` can still drop them. Two contract-abiding providers
discover four items under `maxTotal = 3` (quota 2 each); provider B's
enrichment fails with a non-abort error, its group degrades to the
un-enriched `[b1, b2]`, yet `b2` — the fourth item — is cut by the size
cap and does not appear in the final output. -/
theorem enrich_failure_drop_cex :
    provB.enrich [itB1, itB2] = Except.error (JsError.other "boom")
    ∧ groupsOf [provA, provB] (discoveredPool [provA, provB] ["t"] 3 sigFalse)
        = [(0, [itA1, itA2]), (1, [itB1, itB2])]
    ∧ runSearch [provA, provB] ["t"] 3 sigFalse
        = Except.ok [FoundItem.toEnriched itA1, FoundItem.toEnriched itA2,
            FoundItem.toEnriched itB1]
    ∧ ∀ e ∈ [FoundItem.toEnriched itA1, FoundItem.toEnriched itA2,
          FoundItem.toEnriched itB1], e.item.url ≠ "b2" := by
  refine ⟨rfl, rfl, rfl, by decide⟩

/-- C5 (amended): when a provider group's enrichment fails with a
non-cancellation error, the engine substitutes the group's original items
un-enriched (no metadata fields added) — they all appear in the
enrichment-phase output, and they appear in the final returned collection
whenever that output fits within `maxTotal`; enrichment failure by itself
never drops an item, only the final size cap can. -/
theorem enrich_failure_degrades (providers : List Provider)
    (tokens : List String) (maxTotal : Nat) (sig : Nat → Bool)
    (out : List EnrichedItem) (k : Nat) (its : List FoundItem) (p : Provider)
    (msg : String)
    (hrun : runSearch providers tokens maxTotal sig = Except.ok out)
    (hgrp : (k, its) ∈ groupsOf providers
      (discoveredPool providers tokens maxTotal sig))
    (hp : providers.get? k = some p)
    (he : p.enrich its = Except.error (JsError.other msg)) :
    (∀ it ∈ its, FoundItem.toEnriched it
        ∈ enrichedAll providers (discoveredPool providers tokens maxTotal sig))
    ∧ ((enrichedAll providers
          (discoveredPool providers tokens maxTotal sig)).length ≤ maxTotal
        → ∀ it ∈ its, FoundItem.toEnriched it ∈ out) := by
  have hchunk : chunkOf providers (k, its) = its.map FoundItem.toEnriched := by
    simp only [chunkOf, hp, he]
  have hmem : its.map FoundItem.toEnriched
      ∈ (groupsOf providers
          (discoveredPool providers tokens maxTotal sig)).map (chunkOf providers) := by
    rw [← hchunk]
    exact List.mem_map_of_mem (chunkOf providers) hgrp
  constructor
  · intro it hit
    unfold enrichedAll
    rw [List.mem_flatten]
    exact ⟨its.map FoundItem.toEnriched, hmem, List.mem_map_of_mem _ hit⟩
  · intro hlen it hit
    have hout := runSearch_ok_shape providers tokens maxTotal sig out hrun
    rw [hout, List.take_of_length_le hlen]
    unfold enrichedAll
    rw [List.mem_flatten]
    exact ⟨its.map FoundItem.toEnriched, hmem, List.mem_map_of_mem _ hit⟩

/-- Witness for the amended C5: with `maxTotal = 10` the whole output fits
and `b2` survives provider B's enrichment failure un-enriched. -/
theorem enrich_failure_degrades_witness :
    FoundItem.toEnriched itB2
      ∈ ([FoundItem.toEnriched itA1, FoundItem.toEnriched itA2,
          FoundItem.toEnriched itB1, FoundItem.toEnriched itB2] :
          List EnrichedItem) :=
  (enrich_failure_degrades [provA, provB] ["t"] 10 sigFalse
    [FoundItem.toEnriched itA1, FoundItem.toEnriched itA2,
     FoundItem.toEnriched itB1, FoundItem.toEnriched itB2]
    1 [itB1, itB2] provB "boom" rfl (by decide) rfl rfl).2
    (by decide) itB2 (by decide)

/-! ## Helper lemmas: the no-cancellation merge (towards C1) -/

theorem contains_iff_mem (l : List String) (a : String) :
    l.contains a = true ↔ a ∈ l := by
  rw [List.contains_eq_any_beq]
  simp [List.any_eq_true]

theorem contains_append_str (l1 l2 : List String) (a : String) :
    (l1 ++ l2).contains a = (l1.contains a || l2.contains a) := by
  simp [List.contains_eq_any_beq]

/-- With a never-fired signal, one provider's merge loop is exactly the
first-wins URL insertion of its items, consuming one observation each. -/
theorem mergeLoop_noabort (sig : Nat → Bool) (hsig : ∀ t, sig t = false) :
    ∀ (items : List FoundItem) (t : Nat) (seen : List String)
      (disc : List FoundItem),
      mergeLoop sig items t seen disc
        = (t + items.length, insertAll seen disc items) := by
  intro items
  induction items with
  | nil =>
    intro t seen disc
    simp [mergeLoop, insertAll]
  | cons it rest ih =>
    intro t seen disc
    simp only [mergeLoop, insertAll]
    rw [if_neg (by simp [hsig t])]
    by_cases hc : seen.contains it.url = true
    · rw [if_pos hc, if_pos hc, ih (t + 1) seen disc]
      refine Prod.ext ?_ rfl
      simp only [List.length_cons]
      omega
    · rw [if_neg hc, if_neg hc, ih (t + 1) (seen ++ [it.url]) (disc ++ [it])]
      refine Prod.ext ?_ rfl
      simp only [List.length_cons]
      omega

theorem insertAll_append :
    ∀ (xs ys : List FoundItem) (seen : List String) (disc : List FoundItem),
      insertAll seen disc (xs ++ ys)
        = insertAll (insertAll seen disc xs).1 (insertAll seen disc xs).2 ys := by
  intro xs
  induction xs with
  | nil => intro ys seen disc; rfl
  | cons x rest ih =>
    intro ys seen disc
    simp only [List.cons_append, insertAll]
    by_cases hc : seen.contains x.url = true
    · rw [if_pos hc, if_pos hc]
      exact ih ys seen disc
    · rw [if_neg hc, if_neg hc]
      exact ih ys (seen ++ [x.url]) (disc ++ [x])

/-- Invariant: the seen-URL set is exactly the merged pool's URLs. -/
theorem insertAll_seen : ∀ (xs disc : List FoundItem),
    (insertAll (disc.map (fun i => i.url)) disc xs).1
      = (insertAll (disc.map (fun i => i.url)) disc xs).2.map (fun i => i.url) := by
  intro xs
  induction xs with
  | nil => intro disc; rfl
  | cons x rest ih =>
    intro disc
    simp only [insertAll]
    by_cases hc : (disc.map (fun i => i.url)).contains x.url = true
    · rw [if_pos hc]
      exact ih disc
    · rw [if_neg hc]
      have hmap : disc.map (fun i => i.url) ++ [x.url]
          = (disc ++ [x]).map (fun i => i.url) := by simp
      rw [hmap]
      exact ih (disc ++ [x])

/-- Invariant: the merged pool's URLs stay pairwise distinct. -/
theorem insertAll_nodup : ∀ (xs disc : List FoundItem),
    (disc.map (fun i => i.url)).Nodup →
    ((insertAll (disc.map (fun i => i.url)) disc xs).2.map (fun i => i.url)).Nodup := by
  intro xs
  induction xs with
  | nil => intro disc h; exact h
  | cons x rest ih =>
    intro disc h
    simp only [insertAll]
    by_cases hc : (disc.map (fun i => i.url)).contains x.url = true
    · rw [if_pos hc]
      exact ih disc h
    · rw [if_neg hc]
      have hmap : disc.map (fun i => i.url) ++ [x.url]
          = (disc ++ [x]).map (fun i => i.url) := by simp
      rw [hmap]
      apply ih (disc ++ [x])
      rw [← hmap]
      rw [List.nodup_append]
      refine ⟨h, by simp, ?_⟩
      intro a ha hax
      simp only [List.mem_singleton] at hax
      subst hax
      exact absurd ((contains_iff_mem _ _).mpr ha) hc

/-- The merged pool's URL set is the URL set of the processed stream. -/
theorem insertAll_mem : ∀ (xs disc : List FoundItem) (u : String),
    u ∈ (insertAll (disc.map (fun i => i.url)) disc xs).2.map (fun i => i.url)
      ↔ u ∈ disc.map (fun i => i.url) ∨ u ∈ xs.map (fun i => i.url) := by
  intro xs
  induction xs with
  | nil =>
    intro disc u
    simp [insertAll]
  | cons x rest ih =>
    intro disc u
    simp only [insertAll]
    by_cases hc : (disc.map (fun i => i.url)).contains x.url = true
    · have hx : x.url ∈ disc.map (fun i => i.url) := (contains_iff_mem _ _).mp hc
      rw [if_pos hc, ih disc u, List.map_cons, List.mem_cons]
      constructor
      · rintro (h | h)
        · exact Or.inl h
        · exact Or.inr (Or.inr h)
      · rintro (h | h | h)
        · exact Or.inl h
        · subst h; exact Or.inl hx
        · exact Or.inr h
    · rw [if_neg hc]
      have hmap : disc.map (fun i => i.url) ++ [x.url]
          = (disc ++ [x]).map (fun i => i.url) := by simp
      rw [hmap, ih (disc ++ [x]) u, ← hmap]
      simp only [List.mem_append, List.mem_singleton, List.map_cons,
        List.mem_cons]
      tauto

/-- First-wins: every pool item not already present was the first item of
the processed stream bearing its URL. -/
theorem insertAll_first : ∀ (xs disc : List FoundItem) (it : FoundItem),
    it ∈ (insertAll (disc.map (fun i => i.url)) disc xs).2 →
    it ∈ disc ∨ (xs.find? (fun x => x.url == it.url) = some it
      ∧ (disc.map (fun i => i.url)).contains it.url = false) := by
  intro xs
  induction xs with
  | nil =>
    intro disc it h
    exact Or.inl h
  | cons x rest ih =>
    intro disc it h
    simp only [insertAll] at h
    by_cases hc : (disc.map (fun i => i.url)).contains x.url = true
    · rw [if_pos hc] at h
      rcases ih disc it h with h1 | ⟨h2, h3⟩
      · exact Or.inl h1
      · right
        have hne : (x.url == it.url) = false := by
          cases hb : x.url == it.url
          · rfl
          · exfalso
            rw [beq_iff_eq] at hb
            rw [hb] at hc
            rw [h3] at hc
            exact Bool.false_ne_true hc
        rw [List.find?_cons]
        simp only [hne]
        exact ⟨h2, h3⟩
    · rw [if_neg hc] at h
      have hmap : disc.map (fun i => i.url) ++ [x.url]
          = (disc ++ [x]).map (fun i => i.url) := by simp
      rw [hmap] at h
      rcases ih (disc ++ [x]) it h with h1 | ⟨h2, h3⟩
      · rcases List.mem_append.mp h1 with h1 | h1
        · exact Or.inl h1
        · simp only [List.mem_singleton] at h1
          subst h1
          right
          constructor
          · simp [List.find?_cons]
          · exact Bool.eq_false_iff.mpr hc
      · right
        rw [← hmap, contains_append_str] at h3
        have h3l : (disc.map (fun i => i.url)).contains it.url = false :=
          (Bool.or_eq_false_iff.mp h3).1
        have h3r : ([x.url] : List String).contains it.url = false :=
          (Bool.or_eq_false_iff.mp h3).2
        have hne : (x.url == it.url) = false := by
          cases hb : x.url == it.url
          · rfl
          · exfalso
            rw [beq_iff_eq] at hb
            have : it.url ∈ [x.url] := by simp [hb]
            rw [← contains_iff_mem] at this
            rw [h3r] at this
            exact Bool.false_ne_true this
        rw [List.find?_cons]
        simp only [hne]
        exact ⟨h2, h3l⟩

/-- With a never-fired signal, the whole discovery fold is the first-wins
insertion of the concatenated stream of successful search results. -/
theorem discoverFold_noabort (sig : Nat → Bool) (hsig : ∀ t, sig t = false)
    (opts : ProviderOptions) :
    ∀ (providers : List Provider) (t : Nat) (seen : List String)
      (disc : List FoundItem),
      List.foldl (discoverStep sig opts) (t, seen, disc) providers
        = (t + ((providers.map (successItems opts)).flatten).length,
           insertAll seen disc ((providers.map (successItems opts)).flatten)) := by
  intro providers
  induction providers with
  | nil =>
    intro t seen disc
    simp [insertAll]
  | cons p ps ih =>
    intro t seen disc
    simp only [List.foldl_cons, List.map_cons, List.flatten_cons]
    have hstep : discoverStep sig opts (t, seen, disc) p
        = (t + (successItems opts p).length,
           insertAll seen disc (successItems opts p)) := by
      unfold discoverStep successItems
      rcases hs : p.search opts with e | items
      · simp [insertAll]
      · simp only []
        exact mergeLoop_noabort sig hsig items t seen disc
    rw [hstep]
    rw [show ((t + (successItems opts p).length,
        insertAll seen disc (successItems opts p)) :
        Nat × List String × List FoundItem)
      = (t + (successItems opts p).length,
         (insertAll seen disc (successItems opts p)).1,
         (insertAll seen disc (successItems opts p)).2) from rfl]
    rw [ih (t + (successItems opts p).length)
      (insertAll seen disc (successItems opts p)).1
      (insertAll seen disc (successItems opts p)).2]
    rw [insertAll_append (successItems opts p) ((ps.map (successItems opts)).flatten)
      seen disc]
    refine Prod.ext ?_ rfl
    simp only [List.length_append]
    omega

/-- With a never-fired signal, the engine's merged pool is exactly the
first-wins deduplication of the full discovery stream. -/
theorem discoveredPool_noabort (providers : List Provider)
    (tokens : List String) (maxTotal : Nat) (sig : Nat → Bool)
    (hsig : ∀ t, sig t = false) :
    discoveredPool providers tokens maxTotal sig
      = (insertAll [] [] (searchStream providers tokens maxTotal)).2 := by
  unfold discoveredPool discoverPhase searchStream
  rw [discoverFold_noabort sig hsig
    ⟨tokens, perProviderTarget providers.length maxTotal⟩ providers 1 [] []]

/-! ## Helper lemmas: grouping is a permutation of the resolvable pool -/

theorem addToGroup_flatten_perm (k : Nat) (it : FoundItem) :
    ∀ gs : List (Nat × List FoundItem),
      ((addToGroup gs k it).map (fun g => g.2)).flatten.Perm
        ((gs.map (fun g => g.2)).flatten ++ [it]) := by
  intro gs
  induction gs with
  | nil =>
    simp [addToGroup]
  | cons g rest ih =>
    simp only [addToGroup]
    by_cases hk : g.1 = k
    · rw [if_pos hk]
      simp only [List.map_cons, List.flatten_cons]
      have e1 : (g.2 ++ [it]) ++ (rest.map (fun g => g.2)).flatten
          = g.2 ++ ([it] ++ (rest.map (fun g => g.2)).flatten) := by
        rw [List.append_assoc]
      have e2 : (g.2 ++ (rest.map (fun g => g.2)).flatten) ++ [it]
          = g.2 ++ ((rest.map (fun g => g.2)).flatten ++ [it]) := by
        rw [List.append_assoc]
      rw [e1, e2]
      exact List.Perm.append_left g.2 (List.perm_append_comm)
    · rw [if_neg hk]
      simp only [List.map_cons, List.flatten_cons]
      have e2 : (g.2 ++ (rest.map (fun g => g.2)).flatten) ++ [it]
          = g.2 ++ ((rest.map (fun g => g.2)).flatten ++ [it]) := by
        rw [List.append_assoc]
      rw [e2]
      exact List.Perm.append_left g.2 ih

theorem groupsFold_perm (providers : List Provider) :
    ∀ (items : List FoundItem) (gs : List (Nat × List FoundItem)),
      (((items.foldl (groupStep providers) gs).map (fun g => g.2)).flatten).Perm
        ((gs.map (fun g => g.2)).flatten
          ++ items.filter (fun it =>
              (providers.findIdx? (fun q => q.id == it.source)).isSome)) := by
  intro items
  induction items with
  | nil =>
    intro gs
    simp
  | cons it rest ih =>
    intro gs
    simp only [List.foldl_cons, List.filter_cons]
    rcases hf : providers.findIdx? (fun q => q.id == it.source) with _ | k
    · have hstep : groupStep providers gs it = gs := by
        unfold groupStep
        rw [hf]
      have hc : ((providers.findIdx? (fun q => q.id == it.source)).isSome) = false := by
        rw [hf]; rfl
      rw [hstep, hc, if_neg Bool.false_ne_true]
      exact ih gs
    · have hstep : groupStep providers gs it = addToGroup gs k it := by
        unfold groupStep
        rw [hf]
      have hc : ((providers.findIdx? (fun q => q.id == it.source)).isSome) = true := by
        rw [hf]; rfl
      rw [hstep, hc, if_pos rfl]
      have t1 := ih (addToGroup gs k it)
      have t2 := List.Perm.append_right
        (rest.filter (fun it =>
          (providers.findIdx? (fun q => q.id == it.source)).isSome))
        (addToGroup_flatten_perm k it gs)
      have t4 : ((gs.map (fun g => g.2)).flatten ++ [it])
            ++ rest.filter (fun it =>
                (providers.findIdx? (fun q => q.id == it.source)).isSome)
          = (gs.map (fun g => g.2)).flatten
            ++ (it :: rest.filter (fun it =>
                (providers.findIdx? (fun q => q.id == it.source)).isSome)) := by
        rw [List.append_assoc]
        rfl
      rw [← t4]
      exact t1.trans t2

/-- When every successful provider enrichment preserves URLs positionally,
each enrichment chunk carries exactly its group's URLs. -/
theorem chunk_urls (providers : List Provider)
    (henrich : ∀ p ∈ providers, ∀ its res, p.enrich its = Except.ok res →
      res.map (fun e => e.item.url) = its.map (fun i => i.url))
    (g : Nat × List FoundItem) :
    (chunkOf providers g).map (fun e => e.item.url)
      = g.2.map (fun i => i.url) := by
  unfold chunkOf
  rcases hp : providers.get? g.1 with _ | p
  · simp only []
    rw [List.map_map]
    rfl
  · simp only []
    rcases he : p.enrich g.2 with e | res
    · simp only []
      rw [List.map_map]
      rfl
    · simp only []
      exact henrich p (List.get?_mem hp) g.2 res he

theorem enrichedAll_urls (providers : List Provider) (pool : List FoundItem)
    (henrich : ∀ p ∈ providers, ∀ its res, p.enrich its = Except.ok res →
      res.map (fun e => e.item.url) = its.map (fun i => i.url)) :
    (enrichedAll providers pool).map (fun e => e.item.url)
      = (((groupsOf providers pool).map (fun g => g.2)).flatten).map
          (fun i => i.url) := by
  unfold enrichedAll
  rw [List.map_flatten, List.map_flatten, List.map_map, List.map_map]
  refine congrArg List.flatten (List.map_congr_left ?_)
  intro g hg
  show (chunkOf providers g).map (fun e => e.item.url)
    = g.2.map (fun i => i.url)
  exact chunk_urls providers henrich g

/-- C1: in a non-cancelled run with URL-preserving enrichment, the
engine's merged pool contains each discovered URL exactly once — its URLs
are pairwise distinct and are exactly the URLs of the providers' combined
discovery stream — keeping for each URL the first-seen item of that
stream; and the collection finally returned by `runSearch` has pairwise
distinct URLs as well. -/
theorem run_search_dedup (providers : List Provider) (tokens : List String)
    (maxTotal : Nat) (sig : Nat → Bool) (out : List EnrichedItem)
    (hsig : ∀ t, sig t = false)
    (henrich : ∀ p ∈ providers, ∀ its res, p.enrich its = Except.ok res →
      res.map (fun e => e.item.url) = its.map (fun i => i.url))
    (hrun : runSearch providers tokens maxTotal sig = Except.ok out) :
    ((discoveredPool providers tokens maxTotal sig).map (fun i => i.url)).Nodup
    ∧ (∀ u, u ∈ (searchStream providers tokens maxTotal).map (fun i => i.url)
        ↔ u ∈ (discoveredPool providers tokens maxTotal sig).map (fun i => i.url))
    ∧ (∀ it ∈ discoveredPool providers tokens maxTotal sig,
        (searchStream providers tokens maxTotal).find?
          (fun x => x.url == it.url) = some it)
    ∧ (out.map (fun e => e.item.url)).Nodup := by
  have hpool := discoveredPool_noabort providers tokens maxTotal sig hsig
  have h1 : ((discoveredPool providers tokens maxTotal sig).map
      (fun i => i.url)).Nodup := by
    rw [hpool]
    exact insertAll_nodup (searchStream providers tokens maxTotal) [] (by simp)
  refine ⟨h1, ?_, ?_, ?_⟩
  · intro u
    rw [hpool]
    have hm := insertAll_mem (searchStream providers tokens maxTotal) [] u
    constructor
    · intro h
      exact hm.mpr (Or.inr h)
    · intro h
      rcases hm.mp h with h | h
      · exact absurd h (by simp)
      · exact h
  · intro it hit
    rw [hpool] at hit
    rcases insertAll_first (searchStream providers tokens maxTotal) [] it hit
      with h | ⟨h2, -⟩
    · exact absurd h (List.not_mem_nil it)
    · exact h2
  · have hout := runSearch_ok_shape providers tokens maxTotal sig out hrun
    rw [hout]
    have hperm := groupsFold_perm providers
      (discoveredPool providers tokens maxTotal sig) []
    have hurls := enrichedAll_urls providers
      (discoveredPool providers tokens maxTotal sig) henrich
    have hfil : (((discoveredPool providers tokens maxTotal sig).filter
        (fun it => (providers.findIdx? (fun q => q.id == it.source)).isSome)).map
          (fun i => i.url)).Nodup := by
      exact List.Nodup.sublist
        (List.Sublist.map (fun i : FoundItem => i.url) (List.filter_sublist _)) h1
    have hflat : ((((groupsOf providers
        (discoveredPool providers tokens maxTotal sig)).map
          (fun g => g.2)).flatten).map (fun i => i.url)).Nodup := by
      have hpm := List.Perm.map (fun i => i.url) hperm
      rw [show List.foldl (groupStep providers) []
            (discoveredPool providers tokens maxTotal sig)
          = groupsOf providers (discoveredPool providers tokens maxTotal sig)
          from rfl] at hpm
      rw [List.Perm.nodup_iff hpm]
      simpa using hfil
    have hsub : (((enrichedAll providers
          (discoveredPool providers tokens maxTotal sig)).take maxTotal).map
            (fun e => e.item.url)).Sublist
        ((enrichedAll providers
          (discoveredPool providers tokens maxTotal sig)).map
            (fun e => e.item.url)) := by
      exact List.Sublist.map (fun e : EnrichedItem => e.item.url)
        (List.take_sublist _ _)
    apply List.Nodup.sublist hsub
    rw [hurls]
    exact hflat

/-- Witness for C1: one provider discovering two distinct URLs, with a
failing (hence vacuously URL-preserving) enrichment. -/
theorem run_search_dedup_witness :
    ((discoveredPool [provB] ["t"] 5 sigFalse).map (fun i => i.url)).Nodup
    ∧ (([FoundItem.toEnriched itB1, FoundItem.toEnriched itB2] :
        List EnrichedItem).map (fun e => e.item.url)).Nodup :=
  ⟨(run_search_dedup [provB] ["t"] 5 sigFalse
      [FoundItem.toEnriched itB1, FoundItem.toEnriched itB2]
      (fun _ => rfl)
      (by
        intro p hp its res h
        simp only [List.mem_singleton] at hp
        subst hp
        simp [provB] at h)
      rfl).1,
   (run_search_dedup [provB] ["t"] 5 sigFalse
      [FoundItem.toEnriched itB1, FoundItem.toEnriched itB2]
      (fun _ => rfl)
      (by
        intro p hp its res h
        simp only [List.mem_singleton] at hp
        subst hp
        simp [provB] at h)
      rfl).2.2.2⟩

end QiitaSearch
